import Mathlib

/-!
A shallow embedding of the memory allocator in src/src/osmem.c, together with
theorems checking the specification's claims about it.

The allocator state is modelled explicitly: the heap block list (in list order,
which the code keeps equal to address order), the mapped block list, the two
sentinel size latches, the program break, and a flat byte memory.  The kernel
collaborators (sbrk, mmap, munmap, getpagesize) are out of scope of the spec
(section 6) and are modelled as always succeeding: sbrk advances the break,
mmap returns a fresh zero-filled region at a model-chosen address, munmap
removes the block from the list.
-/

namespace OsMem

/-- Size of the machine word domain: size_t arithmetic is modulo 2^64.
The literal equals 2 ^ 64. -/
def W : Nat := 18446744073709551616

/-- Block status.  Modelled from the spec: block_meta.h is not under src/;
section 3 of the spec gives status as one of FREE, ALLOCATED, MAPPED. -/
inductive Status where
  | free
  | alloc
  | mapped
  deriving DecidableEq, Repr

/-- One block header: its address, status and (aligned) payload size,
from struct block_meta.  The prev/next links are represented by the position
of the block in the enclosing list. -/
structure Block where
  addr : Nat
  status : Status
  size : Nat
  deriving DecidableEq, Repr

/-- ALIGNMENT is 8; SIZE_ALIGN(size) is ((size) + 7) and not 7, i.e. the least
multiple of 8 that is at least size (osmem.c line 16).  SIZE_ALIGN is
idempotent, so places where the code applies it to an already aligned value
are written with a single application. -/
def SIZE_ALIGN (size : Nat) : Nat := (size + 7) / 8 * 8

/-- Modelled from the spec: sizeof(struct block_meta); block_meta.h is not
under src/, and section 8 of the spec assumes a header size of 32 bytes. -/
def sizeof_block_meta : Nat := 32

/-- META_DATA_SIZE = SIZE_ALIGN(sizeof(TBlock_meta)) (osmem.c line 19). -/
def META_DATA_SIZE : Nat := SIZE_ALIGN sizeof_block_meta

/-- BRK_LIMIT (HEAP_POOL): 128 KiB (osmem.c line 12). -/
def BRK_LIMIT : Nat := 128 * 1024

/-- size_t subtraction: pointer differences assigned to size_t wrap modulo W. -/
def subW (a b : Nat) : Nat := (W + a - b) % W

/-- The allocator state.  brkHeadSize and mmapHeadSize model the size fields
of the two sentinel nodes, which the code uses as initialization latches. -/
structure AllocState where
  heap : List Block
  mapped : List Block
  brkHeadSize : Nat
  mmapHeadSize : Nat
  brk : Nat
  nextMap : Nat
  pageSize : Nat
  mem : Nat → Nat

/-- memset(dst, 0, len) on the flat memory. -/
def memset0 (m : Nat → Nat) (dst len : Nat) : Nat → Nat :=
  fun x => if dst ≤ x ∧ x < dst + len then 0 else m x

/-- memcpy(dst, src, len) on the flat memory. -/
def memcpyMem (m : Nat → Nat) (dst src len : Nat) : Nat → Nat :=
  fun x => if dst ≤ x ∧ x < dst + len then m (src + (x - dst)) else m x

/-- Modelled from the spec: map_anonymous returns a fresh zero-initialized
private mapping at a kernel-chosen address.  The model places mappings at
increasing addresses separated by this guard gap, so distinct mappings are
never adjacent. -/
def MMAP_GUARD : Nat := 1048576

/-- add_meta_cell_mmap (osmem.c lines 45-72): if the mapped sentinel's size is
zero, run init_list_mmap — which resets the list to empty and leaves the size
latch at 0 (osmem.c lines 35-41) — then mmap header + aligned size bytes,
initialize a MAPPED header there, insert the cell before the sentinel (tail
insertion) and return the payload address. -/
def add_meta_cell_mmap (st : AllocState) (size : Nat) : AllocState × Nat :=
  let st0 := if st.mmapHeadSize = 0 then
      { st with mapped := [], mmapHeadSize := 0 }
    else st
  let total := META_DATA_SIZE + SIZE_ALIGN size
  let addr := st0.nextMap
  let st1 := { st0 with
    nextMap := addr + total + MMAP_GUARD,
    mem := memset0 st0.mem addr total }
  ({ st1 with mapped := st1.mapped ++ [⟨addr, Status.mapped, SIZE_ALIGN size⟩] },
    addr + META_DATA_SIZE)

/-- Unlink the cell with the given address from a list (the unlink step of
delete_meta_cell_mmap, osmem.c lines 77-78). -/
def remove_cell (a : Nat) : List Block → List Block
  | [] => []
  | b :: rest => if b.addr = a then rest else b :: remove_cell a rest

/-- delete_meta_cell_mmap (osmem.c lines 75-80): unlink the cell with the given
address from the mapped list and munmap it.  The model keeps the bytes in mem;
nothing reads them afterwards in the verified scenarios. -/
def delete_meta_cell_mmap (st : AllocState) (a : Nat) : AllocState :=
  { st with mapped := remove_cell a st.mapped }

/-- heap_preallocation (osmem.c lines 121-132): init_list_brk sets the heap
sentinel size latch to 1, sbrk(BRK_LIMIT) advances the break, and a single
FREE block covering the whole preallocation is installed at the old break. -/
def heap_preallocation (st : AllocState) : AllocState :=
  { st with
    brkHeadSize := 1,
    brk := st.brk + BRK_LIMIT,
    heap := [⟨st.brk, Status.free, SIZE_ALIGN (BRK_LIMIT - META_DATA_SIZE)⟩] }

/-- The while loop of coalesce_block (osmem.c lines 140-144): drop the
consecutive FREE successors. -/
def dropFree : List Block → List Block
  | [] => []
  | b :: rest => if b.status = Status.free then dropFree rest else b :: rest

/-- The stop address of coalesce_block / use_unused_space: the next block's
address, or the current break when there is no next block. -/
def stopOf (brk : Nat) : List Block → Nat
  | [] => brk
  | c :: _ => c.addr

/-- The body of coalesce_block (osmem.c lines 135-159) acting on a cell and
the list tail after it: unlink the consecutive FREE successors and set the
cell's size to stop - start - META_DATA_SIZE (size_t arithmetic). -/
def coalesce_cell (brk : Nat) (b : Block) (rest : List Block) :
    Block × List Block :=
  let rest' := dropFree rest
  (⟨b.addr, b.status, subW (subW (stopOf brk rest') b.addr) META_DATA_SIZE⟩,
    rest')

/-- coalesce_block applied to the cell with the given address (the code calls
it through a pointer; the model locates the cell in the list). -/
def coalesce_block_at (brk a : Nat) : List Block → List Block
  | [] => []
  | b :: rest =>
    if b.addr = a then
      (coalesce_cell brk b rest).1 :: (coalesce_cell brk b rest).2
    else b :: coalesce_block_at brk a rest

/-- The loop of coalesce_blocks (osmem.c lines 162-174), fuelled by the list
length so the recursion is structural: every FREE cell absorbs its FREE
successors and the walk continues from the cell after it. -/
def coalesce_blocks_aux (brk : Nat) : Nat → List Block → List Block
  | 0, l => l
  | _ + 1, [] => []
  | fuel + 1, b :: rest =>
    if b.status = Status.free then
      (coalesce_cell brk b rest).1 ::
        coalesce_blocks_aux brk fuel (coalesce_cell brk b rest).2
    else b :: coalesce_blocks_aux brk fuel rest

/-- coalesce_blocks (osmem.c lines 162-174). -/
def coalesce_blocks (brk : Nat) (l : List Block) : List Block :=
  coalesce_blocks_aux brk l.length l

/-- use_unused_space (osmem.c lines 177-194) at the cell with the given
address: if the gap between addr + META_DATA_SIZE + SIZE_ALIGN(size_used) and
the next block (or the break) exceeds META_DATA_SIZE bytes, link a new FREE
block in the gap. -/
def use_unused_space (brk a used : Nat) : List Block → List Block
  | [] => []
  | b :: rest =>
    if b.addr = a then
      let start := a + META_DATA_SIZE + SIZE_ALIGN used
      let gap := subW (stopOf brk rest) start
      if META_DATA_SIZE < gap then
        b :: ⟨start, Status.free, SIZE_ALIGN (subW gap META_DATA_SIZE)⟩ :: rest
      else b :: rest
    else b :: use_unused_space brk a used rest

/-- The scan loop of search_best_fit (osmem.c lines 200-214), carrying the
current index and the best candidate (index, size) found so far; the two ifs
of the loop body are mirrored. -/
def search_loop (size : Nat) :
    List Block → Nat → Option (Nat × Nat) → Option (Nat × Nat)
  | [], _, best => best
  | b :: rest, i, best =>
    let best1 :=
      if b.status = Status.free then
        let t := if best = none ∧ size ≤ b.size then some (i, b.size) else best
        match t with
        | none => none
        | some (bi, bs) =>
          if size ≤ b.size ∧ b.size < bs then some (i, b.size)
          else some (bi, bs)
      else best
    search_loop size rest (i + 1) best1

/-- The index of the block search_best_fit selects, if any. -/
def search_best_fit_idx (size : Nat) (l : List Block) : Option Nat :=
  (search_loop size l 0 none).map Prod.fst

/-- The success path of search_best_fit (osmem.c lines 216-226): unlink the
winner, relink it in place as ALLOCATED with size SIZE_ALIGN(size), and carve
the unused tail with use_unused_space using the winner's updated size. -/
def alloc_best_fit (st : AllocState) (j size : Nat) : AllocState × Nat :=
  let b := st.heap.getD j ⟨0, Status.free, 0⟩
  let heap1 := st.heap.set j ⟨b.addr, Status.alloc, SIZE_ALIGN size⟩
  let heap2 := use_unused_space st.brk b.addr (SIZE_ALIGN size) heap1
  ({ st with heap := heap2 }, b.addr + META_DATA_SIZE)

/-- increase_heap (osmem.c lines 233-268).  If the last cell is FREE the break
advances by the remaining deficit and the cell is reinstalled in place as
ALLOCATED with the full aligned size; otherwise the break advances by header
plus aligned size and a fresh ALLOCATED cell is appended.  An empty list only
occurs before preallocation; the sentinel's status is not FREE, so it takes
the second branch. -/
def increase_heap (st : AllocState) (size : Nat) : AllocState × Nat :=
  match st.heap.getLast? with
  | some last =>
    if last.status = Status.free then
      let lastAddr := last.addr + META_DATA_SIZE + last.size
      let rem := subW (subW (SIZE_ALIGN size) last.size) (subW st.brk lastAddr)
      ({ st with
          brk := st.brk + rem,
          heap := st.heap.dropLast ++ [⟨last.addr, Status.alloc, SIZE_ALIGN size⟩] },
        last.addr + META_DATA_SIZE)
    else
      ({ st with
          brk := st.brk + (META_DATA_SIZE + SIZE_ALIGN size),
          heap := st.heap ++ [⟨st.brk, Status.alloc, SIZE_ALIGN size⟩] },
        st.brk + META_DATA_SIZE)
  | none =>
    ({ st with
        brk := st.brk + (META_DATA_SIZE + SIZE_ALIGN size),
        heap := st.heap ++ [⟨st.brk, Status.alloc, SIZE_ALIGN size⟩] },
      st.brk + META_DATA_SIZE)

/-- The heap list after the preallocation-if-needed and coalesce_blocks steps
that start every heap-bound request (osmem.c lines 285-289 and 336-339). -/
def heapReady (st : AllocState) : AllocState :=
  let st1 := if st.brkHeadSize = 0 then heap_preallocation st else st
  { st1 with heap := coalesce_blocks st1.brk st1.heap }

/-- The heap branch shared verbatim by os_malloc (osmem.c lines 284-296) and
os_calloc (osmem.c lines 335-344): preallocate if needed, coalesce, best-fit,
and on a miss extend the heap. -/
def heapPath (st : AllocState) (size : Nat) : AllocState × Nat :=
  let st2 := heapReady st
  match search_best_fit_idx size st2.heap with
  | some j => alloc_best_fit st2 j size
  | none => increase_heap st2 size

/-- os_malloc (osmem.c lines 273-299). -/
def os_malloc (st : AllocState) (size : Nat) : AllocState × Option Nat :=
  if size = 0 then (st, none)
  else if BRK_LIMIT ≤ size then
    ((add_meta_cell_mmap st size).1, some (add_meta_cell_mmap st size).2)
  else
    ((heapPath st size).1, some (heapPath st size).2)

/-- Look up the status stored in the header at address a: the heap list is
searched first, then the mapped list.  In the code the status is read directly
from memory; heap and mapped regions are disjoint. -/
def statusAt (st : AllocState) (a : Nat) : Option Status :=
  match st.heap.find? (fun b => b.addr == a) with
  | some b => some b.status
  | none => (st.mapped.find? (fun b => b.addr == a)).map Block.status

/-- Mutate the (first) heap cell with the given address, as the code does
through the resolved header pointer. -/
def set_block_at (a : Nat) (f : Block → Block) : List Block → List Block
  | [] => []
  | b :: rest => if b.addr = a then f b :: rest else b :: set_block_at a f rest

/-- The (first) block with the given address; the code dereferences the
resolved header pointer directly. -/
def getBlockAt (l : List Block) (a : Nat) : Block :=
  (l.find? (fun b => b.addr == a)).getD ⟨0, Status.free, 0⟩

/-- os_free (osmem.c lines 301-313): a null pointer is a no-op; an ALLOCATED
header just has its status flipped to FREE; a MAPPED header is unlinked and
unmapped; any other status falls through both ifs and nothing happens. -/
def os_free (st : AllocState) (ptr : Nat) : AllocState :=
  if ptr = 0 then st
  else
    let a := ptr - META_DATA_SIZE
    match statusAt st a with
    | some Status.alloc =>
      { st with heap := set_block_at a (fun b => { b with status := Status.free }) st.heap }
    | some Status.mapped => delete_meta_cell_mmap st a
    | _ => st

/-- os_calloc (osmem.c lines 316-349): the routing threshold is
min(getpagesize(), 4080); the total request is nmemb * size in size_t
arithmetic; after allocation, SIZE_ALIGN(total) bytes at the payload are
zeroed. -/
def os_calloc (st : AllocState) (nmemb size : Nat) : AllocState × Option Nat :=
  let psz := if 4080 < st.pageSize then 4080 else st.pageSize
  let total := nmemb * size % W
  if total = 0 then (st, none)
  else
    let p := if psz ≤ total then add_meta_cell_mmap st total else heapPath st total
    ({ p.1 with mem := memset0 p.1.mem p.2 (SIZE_ALIGN total) }, some p.2)

/-- The STATUS_ALLOC branch of os_realloc (osmem.c lines 374-425), for the
cell at heap address a. -/
def os_realloc_alloc_case (st : AllocState) (a size : Nat) :
    AllocState × Option Nat :=
  let cell := getBlockAt st.heap a
  if BRK_LIMIT ≤ size then
    let st1 := { st with
      heap := set_block_at a (fun b => { b with status := Status.free }) st.heap }
    let p := add_meta_cell_mmap st1 size
    let len := (getBlockAt p.1.heap a).size
    ({ p.1 with mem := memcpyMem p.1.mem p.2 (a + META_DATA_SIZE) len }, some p.2)
  else if SIZE_ALIGN size ≤ cell.size then
    let heap1 := set_block_at a (fun b => { b with size := SIZE_ALIGN size }) st.heap
    let heap2 := use_unused_space st.brk a (SIZE_ALIGN size) heap1
    ({ st with heap := heap2 }, some (a + META_DATA_SIZE))
  else
    let oldSize := cell.size
    let st1 := { st with heap := coalesce_block_at st.brk a st.heap }
    let cell1 := getBlockAt st1.heap a
    if SIZE_ALIGN size ≤ cell1.size then
      let heap1 := set_block_at a
        (fun b => { b with size := SIZE_ALIGN size, status := Status.alloc }) st1.heap
      let heap2 := use_unused_space st1.brk a (SIZE_ALIGN size) heap1
      ({ st1 with heap := heap2 }, some (a + META_DATA_SIZE))
    else
      if st1.heap.getLast?.map Block.addr = some a ∧ oldSize = cell1.size then
        let total := subW (SIZE_ALIGN size) cell1.size
        let heap1 := set_block_at a (fun b => { b with size := SIZE_ALIGN size }) st1.heap
        ({ st1 with brk := st1.brk + total, heap := heap1 }, some (a + META_DATA_SIZE))
      else
        match os_malloc st1 size with
        | (st2, some r) =>
          let st3 := { st2 with
            heap := set_block_at a (fun b => { b with status := Status.free }) st2.heap }
          let len := (getBlockAt st3.heap a).size
          ({ st3 with mem := memcpyMem st3.mem r (a + META_DATA_SIZE) len }, some r)
        | (st2, none) => (st2, none)

/-- The STATUS_MAPPED branch of os_realloc (osmem.c lines 428-439): both
memcpy calls use the new raw size as the byte count. -/
def os_realloc_mapped_case (st : AllocState) (a size : Nat) :
    AllocState × Option Nat :=
  if BRK_LIMIT ≤ size then
    let p := add_meta_cell_mmap st size
    let st2 := { p.1 with mem := memcpyMem p.1.mem p.2 (a + META_DATA_SIZE) size }
    (delete_meta_cell_mmap st2 a, some p.2)
  else
    match os_malloc st size with
    | (st1, some r) =>
      let st2 := { st1 with mem := memcpyMem st1.mem r (a + META_DATA_SIZE) size }
      (delete_meta_cell_mmap st2 a, some r)
    | (st1, none) => (st1, none)

/-- os_realloc (osmem.c lines 351-442). -/
def os_realloc (st : AllocState) (ptr size : Nat) : AllocState × Option Nat :=
  if ptr = 0 then
    if BRK_LIMIT ≤ size then
      ((add_meta_cell_mmap st size).1, some (add_meta_cell_mmap st size).2)
    else os_malloc st size
  else if size = 0 then (os_free st ptr, none)
  else
    let a := ptr - META_DATA_SIZE
    match statusAt st a with
    | some Status.free => (st, none)
    | some Status.alloc => os_realloc_alloc_case st a size
    | some Status.mapped => os_realloc_mapped_case st a size
    | none => (st, none)

/-- The all-zero initial memory. -/
def initMem : Nat → Nat := fun _ => 0

/-- The process start state: both sentinel size latches are zero (the globals
are zero-initialized), the break sits at 4096 and the model kernel hands out
mappings from address 1000000. -/
def initState : AllocState :=
  { heap := []
    mapped := []
    brkHeadSize := 0
    mmapHeadSize := 0
    brk := 4096
    nextMap := 1000000
    pageSize := 4096
    mem := initMem }

/-! Arithmetic helper lemmas. -/

lemma size_align_le (n : Nat) : n ≤ SIZE_ALIGN n := by
  unfold SIZE_ALIGN; omega

lemma size_align_lt (n : Nat) : SIZE_ALIGN n < n + 8 := by
  unfold SIZE_ALIGN; omega

lemma size_align_mod (n : Nat) : SIZE_ALIGN n % 8 = 0 := by
  unfold SIZE_ALIGN; omega

lemma le_size_align_iff (n m : Nat) (hm : m % 8 = 0) :
    SIZE_ALIGN n ≤ m ↔ n ≤ m := by
  unfold SIZE_ALIGN; omega

lemma subW_eq (a b : Nat) (hb : b ≤ a) (ha : a < W) : subW a b = a - b := by
  unfold subW W at *; omega

/-! List helper lemmas about locating a block by its address. -/

lemma find_addr_first (pre post : List Block) (b : Block)
    (hpre : ∀ c ∈ pre, c.addr ≠ b.addr) :
    (pre ++ b :: post).find? (fun c => c.addr == b.addr) = some b := by
  induction pre with
  | nil =>
    simp [List.find?]
  | cons c cs ih =>
    have hc : (c.addr == b.addr) = false := by
      simp only [beq_eq_false_iff_ne, ne_eq]
      exact hpre c (List.mem_cons_self c cs)
    simp only [List.cons_append, List.find?, hc]
    exact ih (fun d hd => hpre d (List.mem_cons_of_mem c hd))

lemma statusAt_heap (st : AllocState) (pre post : List Block) (b : Block)
    (hheap : st.heap = pre ++ b :: post)
    (hpre : ∀ c ∈ pre, c.addr ≠ b.addr) :
    statusAt st b.addr = some b.status := by
  unfold statusAt
  rw [hheap, find_addr_first pre post b hpre]

lemma getBlockAt_first (pre post : List Block) (b : Block)
    (hpre : ∀ c ∈ pre, c.addr ≠ b.addr) :
    getBlockAt (pre ++ b :: post) b.addr = b := by
  unfold getBlockAt
  rw [find_addr_first pre post b hpre]
  rfl

lemma set_block_at_append (pre post : List Block) (b : Block) (f : Block → Block)
    (hpre : ∀ c ∈ pre, c.addr ≠ b.addr) :
    set_block_at b.addr f (pre ++ b :: post) = pre ++ f b :: post := by
  induction pre with
  | nil => simp [set_block_at]
  | cons c cs ih =>
    have hc : c.addr ≠ b.addr := hpre c (List.mem_cons_self c cs)
    simp only [List.cons_append, set_block_at, if_neg hc]
    exact congrArg (List.cons c) (ih (fun d hd => hpre d (List.mem_cons_of_mem c hd)))

lemma coalesce_block_at_last (brk : Nat) (pre : List Block) (b : Block)
    (hpre : ∀ c ∈ pre, c.addr ≠ b.addr) :
    coalesce_block_at brk b.addr (pre ++ [b]) =
      pre ++ [⟨b.addr, b.status, subW (subW brk b.addr) META_DATA_SIZE⟩] := by
  induction pre with
  | nil => simp [coalesce_block_at, coalesce_cell, dropFree, stopOf]
  | cons c cs ih =>
    have hc : c.addr ≠ b.addr := hpre c (List.mem_cons_self c cs)
    simp only [List.cons_append, coalesce_block_at, if_neg hc]
    exact congrArg (List.cons c) (ih (fun d hd => hpre d (List.mem_cons_of_mem c hd)))

/-! Field-preservation lemmas: the heap branch never touches the mapped list
nor the model's mapping address source. -/

lemma heapReady_mapped (st : AllocState) :
    (heapReady st).mapped = st.mapped ∧ (heapReady st).nextMap = st.nextMap := by
  unfold heapReady heap_preallocation
  by_cases h : st.brkHeadSize = 0 <;> simp [h]

lemma alloc_best_fit_mapped (st : AllocState) (j size : Nat) :
    (alloc_best_fit st j size).1.mapped = st.mapped ∧
    (alloc_best_fit st j size).1.nextMap = st.nextMap :=
  ⟨rfl, rfl⟩

lemma increase_heap_mapped (st : AllocState) (size : Nat) :
    (increase_heap st size).1.mapped = st.mapped ∧
    (increase_heap st size).1.nextMap = st.nextMap := by
  unfold increase_heap
  rcases h : st.heap.getLast? with _ | last
  · simp [h]
  · by_cases hf : last.status = Status.free <;> simp [h, hf]

lemma heapPath_mapped (st : AllocState) (size : Nat) :
    (heapPath st size).1.mapped = st.mapped ∧
    (heapPath st size).1.nextMap = st.nextMap := by
  unfold heapPath
  rcases h : search_best_fit_idx size (heapReady st).heap with _ | j <;>
    simp only [h]
  · have h1 := increase_heap_mapped (heapReady st) size
    have h2 := heapReady_mapped st
    exact ⟨h1.1.trans h2.1, h1.2.trans h2.2⟩
  · have h1 := alloc_best_fit_mapped (heapReady st) j size
    have h2 := heapReady_mapped st
    exact ⟨h1.1.trans h2.1, h1.2.trans h2.2⟩

/-! Claim C7. -/

/-- C7: for every size n, resize(null, n) returns the same result and produces
the same state as allocate(n); and for every pointer p (null included),
resize(p, 0) performs free(p) and returns null. -/
theorem realloc_null_and_zero (st : AllocState) (n p : Nat) :
    os_realloc st 0 n = os_malloc st n ∧
    os_realloc st p 0 = (os_free st p, none) := by
  constructor
  · by_cases h : BRK_LIMIT ≤ n
    · have hn : ¬ n = 0 := by unfold BRK_LIMIT at h; omega
      simp [os_realloc, os_malloc, h, hn]
    · simp [os_realloc, h]
  · by_cases hp : p = 0
    · subst hp
      have h0 : ¬ BRK_LIMIT ≤ 0 := by unfold BRK_LIMIT; omega
      simp [os_realloc, os_malloc, os_free, h0]
    · simp [os_realloc, hp]

/-! Claim C2: the mapped list is reinitialized on every mapped allocation,
because init_list_mmap leaves the sentinel's size latch at 0, so the latch
check in add_meta_cell_mmap fires every time and orphans the previously
linked MAPPED blocks. -/

/-- C2 (code bug): after allocate(200000) the mapped list holds the block at
1000000; a second allocate(200000) resets the list, so afterwards only the
new block at 2248608 is linked even though the first was never freed. -/
theorem mmap_list_reset_on_second_alloc :
    ((os_malloc initState 200000).1.mapped.map Block.addr = [1000000]) ∧
    ((os_malloc (os_malloc initState 200000).1 200000).1.mapped.map Block.addr
      = [2248608]) :=
  ⟨rfl, rfl⟩

/-! Claim C3: os_malloc routes by the RAW requested size, not the aligned
size (osmem.c line 281). -/

/-- C3 (counterexample): the request 131065 has aligned size
131072 = HEAP_POOL, yet os_malloc serves it from the heap: the mapped list
stays empty and the returned payload 4128 lies in the preallocated pool. -/
theorem malloc_aligned_threshold_counterexample :
    BRK_LIMIT ≤ SIZE_ALIGN 131065 ∧
    (os_malloc initState 131065).1.mapped = [] ∧
    (os_malloc initState 131065).2 = some 4128 :=
  ⟨by decide, rfl, rfl⟩

/-- C3 (amended): for every nonzero size, allocate(size) is routed to the
mapped-region manager exactly when the raw size is at least HEAP_POOL, and to
the heap path otherwise (which leaves the mapped list untouched). -/
theorem malloc_routing (st : AllocState) (size : Nat) (h : 0 < size) :
    (BRK_LIMIT ≤ size →
      os_malloc st size =
        ((add_meta_cell_mmap st size).1, some (add_meta_cell_mmap st size).2)) ∧
    (size < BRK_LIMIT →
      (os_malloc st size).1.mapped = st.mapped ∧
      (os_malloc st size).1.nextMap = st.nextMap ∧
      (os_malloc st size).2 = some (heapPath st size).2) := by
  have hn : ¬ size = 0 := by omega
  constructor
  · intro hge
    simp [os_malloc, hn, hge]
  · intro hlt
    have hge : ¬ BRK_LIMIT ≤ size := by omega
    simp only [os_malloc, if_neg hn, if_neg hge]
    exact ⟨(heapPath_mapped st size).1, (heapPath_mapped st size).2, trivial⟩

/-- C3 witness: the routing theorem applied at size HEAP_POOL, which goes to
the mapped-region manager. -/
theorem malloc_routing_witness :
    0 < 131072 ∧
    os_malloc initState 131072 =
      ((add_meta_cell_mmap initState 131072).1,
        some (add_meta_cell_mmap initState 131072).2) :=
  ⟨by decide, (malloc_routing initState 131072 (by decide)).1 (by decide)⟩

/-! Claim C1: the MAPPED branches of os_realloc copy the NEW raw size, not
min(old, new): when growing a mapped block the copy reads past the old
payload (osmem.c line 432). -/

/-- The initial memory for the C1 scenario: a marker byte 77 placed 140000
bytes past the start of what will become the first mapping's payload, i.e.
well beyond that 131072-byte payload. -/
def c1Mem : Nat → Nat := fun x => if x = 1140032 then 77 else 0

/-- The C1 start state. -/
def c1State : AllocState := { initState with mem := c1Mem }

/-- C1 (code bug): allocate(131072) creates a MAPPED block with payload
131072 at 1000032; resize of it to 200000 returns the new payload 2179712 and
copies 200000 bytes, so the new payload at offset 140000 holds the marker
byte that lay 140000 bytes past the old payload start — the copy read past
the 131072-byte source payload instead of stopping at min(old, new). -/
theorem realloc_mapped_reads_past_payload :
    ((os_malloc c1State 131072).1.mapped.map Block.size = [131072]) ∧
    ((os_malloc c1State 131072).2 = some 1000032) ∧
    (os_realloc (os_malloc c1State 131072).1 1000032 200000).2 = some 2179712 ∧
    (os_realloc (os_malloc c1State 131072).1 1000032 200000).1.mem
      (2179712 + 140000) = 77 ∧
    c1State.mem (1000032 + 140000) = 77 ∧
    131072 < 140000 :=
  ⟨rfl, rfl, rfl, rfl, rfl, by decide⟩

/-! Claims C8 and C9: os_free on heap blocks. -/

/-- C8: freeing a pointer to an ALLOCATED heap block flips only that block's
status to FREE; its size, its position in the heap list, every other block,
the mapped list, the break and the memory are unchanged. -/
theorem free_alloc_flips_status_only (st : AllocState) (pre post : List Block)
    (b : Block)
    (hheap : st.heap = pre ++ b :: post)
    (hstatus : b.status = Status.alloc)
    (hpre : ∀ c ∈ pre, c.addr ≠ b.addr) :
    os_free st (b.addr + META_DATA_SIZE) =
      { st with heap := pre ++ { b with status := Status.free } :: post } := by
  have hptr : ¬ (b.addr + META_DATA_SIZE = 0) := by
    unfold META_DATA_SIZE SIZE_ALIGN sizeof_block_meta; omega
  have ha : b.addr + META_DATA_SIZE - META_DATA_SIZE = b.addr := by omega
  have hfind : statusAt st b.addr = some Status.alloc := by
    rw [statusAt_heap st pre post b hheap hpre, hstatus]
  unfold os_free
  rw [if_neg hptr]
  simp only [ha, hfind]
  rw [hheap, set_block_at_append pre post b _ hpre]

/-- The C8 witness scenario: a three-block heap, freeing the middle block. -/
def c8State : AllocState :=
  { heap := [⟨100, Status.alloc, 24⟩, ⟨156, Status.alloc, 40⟩,
      ⟨228, Status.free, 64⟩]
    mapped := []
    brkHeadSize := 1
    mmapHeadSize := 0
    brk := 324
    nextMap := 1000000
    pageSize := 4096
    mem := initMem }

/-- C8 witness: the frame theorem applied to the middle block of a concrete
three-block heap. -/
theorem free_alloc_flips_status_only_witness :
    c8State.heap = [⟨100, Status.alloc, 24⟩] ++
      (⟨156, Status.alloc, 40⟩ : Block) :: [⟨228, Status.free, 64⟩] ∧
    (⟨156, Status.alloc, 40⟩ : Block).status = Status.alloc ∧
    os_free c8State (156 + META_DATA_SIZE) =
      { c8State with heap := [⟨100, Status.alloc, 24⟩,
          ⟨156, Status.free, 40⟩, ⟨228, Status.free, 64⟩] } :=
  ⟨rfl, rfl,
    free_alloc_flips_status_only c8State [⟨100, Status.alloc, 24⟩]
      [⟨228, Status.free, 64⟩] ⟨156, Status.alloc, 40⟩ rfl rfl (by decide)⟩

/-- C9: freeing a pointer whose header status is already FREE leaves the whole
allocator state unchanged, so a double free of a heap block is a no-op the
second time. -/
theorem free_on_free_is_noop (st : AllocState) (pre post : List Block)
    (b : Block)
    (hheap : st.heap = pre ++ b :: post)
    (hstatus : b.status = Status.free)
    (hpre : ∀ c ∈ pre, c.addr ≠ b.addr) :
    os_free st (b.addr + META_DATA_SIZE) = st := by
  have hptr : ¬ (b.addr + META_DATA_SIZE = 0) := by
    unfold META_DATA_SIZE SIZE_ALIGN sizeof_block_meta; omega
  have ha : b.addr + META_DATA_SIZE - META_DATA_SIZE = b.addr := by omega
  have hfind : statusAt st b.addr = some Status.free := by
    rw [statusAt_heap st pre post b hheap hpre, hstatus]
  unfold os_free
  rw [if_neg hptr]
  simp only [ha, hfind]

/-- The C9 witness scenario: the c8 heap after its middle block was freed. -/
def c9State : AllocState :=
  { c8State with heap := [⟨100, Status.alloc, 24⟩, ⟨156, Status.free, 40⟩,
      ⟨228, Status.free, 64⟩] }

/-- C9 witness: freeing the already-FREE middle block of a concrete heap
returns the state unchanged. -/
theorem free_on_free_is_noop_witness :
    c9State.heap = [⟨100, Status.alloc, 24⟩] ++
      (⟨156, Status.free, 40⟩ : Block) :: [⟨228, Status.free, 64⟩] ∧
    (⟨156, Status.free, 40⟩ : Block).status = Status.free ∧
    os_free c9State (156 + META_DATA_SIZE) = c9State :=
  ⟨rfl, rfl,
    free_on_free_is_noop c9State [⟨100, Status.alloc, 24⟩]
      [⟨228, Status.free, 64⟩] ⟨156, Status.free, 40⟩ rfl rfl (by decide)⟩

/-! Claim C4: the realloc tail-extension branch additionally requires that
coalescing absorbed nothing (old_size == cell_addr->size, osmem.c line 406);
a block that only becomes last by absorbing a FREE successor is relocated
through allocate-and-copy instead of being grown in place. -/

/-- The C4 counterexample heap: an ALLOCATED 8-byte block followed by a FREE
8-byte block at the end of the heap. -/
def c4State : AllocState :=
  { heap := [⟨1000, Status.alloc, 8⟩, ⟨1040, Status.free, 8⟩]
    mapped := []
    brkHeadSize := 1
    mmapHeadSize := 0
    brk := 1080
    nextMap := 1000000
    pageSize := 4096
    mem := initMem }

/-- C4 (counterexample): resizing the ALLOCATED block at 1000 (payload 1032)
to 1000 bytes: coalescing absorbs the FREE successor, leaving the block last
on the heap list with size 48, still short of SIZE_ALIGN 1000 = 1000; yet
os_realloc does not grow it in place: it returns a fresh payload 1112 instead
of the original 1032, and the break moves to 2112 = 1080 + header + 1000
rather than advancing by the remaining deficit 1000 - 48 (which would give
2032). -/
theorem realloc_last_after_coalesce_counterexample :
    coalesce_block_at c4State.brk 1000 c4State.heap
      = [⟨1000, Status.alloc, 48⟩] ∧
    SIZE_ALIGN 1000 = 1000 ∧
    (os_realloc c4State 1032 1000).2 = some 1112 ∧
    (os_realloc c4State 1032 1000).1.brk = 2112 ∧
    c4State.brk + (SIZE_ALIGN 1000 - 48) = 2032 :=
  ⟨rfl, rfl, rfl, rfl, rfl⟩

/-- C4 (amended): if the ALLOCATED block is already the last heap block, the
break sits exactly at the end of its payload (so coalescing leaves its size
unchanged), and the aligned new size exceeds its size, then os_realloc
advances the break by exactly the remaining deficit, grows the block in
place, and returns the original pointer. -/
theorem realloc_extend_last_in_place (st : AllocState) (pre : List Block)
    (b : Block) (n : Nat)
    (hheap : st.heap = pre ++ [b])
    (hstatus : b.status = Status.alloc)
    (hpre : ∀ c ∈ pre, c.addr ≠ b.addr)
    (hbrk : st.brk = b.addr + META_DATA_SIZE + b.size)
    (hW : st.brk < W)
    (hn : 0 < n) (hlim : n < BRK_LIMIT)
    (hgrow : b.size < SIZE_ALIGN n) :
    os_realloc st (b.addr + META_DATA_SIZE) n =
      ({ st with
          heap := pre ++ [⟨b.addr, Status.alloc, SIZE_ALIGN n⟩],
          brk := st.brk + (SIZE_ALIGN n - b.size) },
        some (b.addr + META_DATA_SIZE)) := by
  have hMETA : META_DATA_SIZE = 32 := rfl
  have hptr : ¬ (b.addr + META_DATA_SIZE = 0) := by omega
  have ha : b.addr + META_DATA_SIZE - META_DATA_SIZE = b.addr := by omega
  have hfind : statusAt st b.addr = some Status.alloc := by
    rw [statusAt_heap st pre [] b hheap hpre, hstatus]
  have hBRKlim : BRK_LIMIT = 131072 := rfl
  have halign_lt : SIZE_ALIGN n < n + 8 := size_align_lt n
  have hBRK : ¬ BRK_LIMIT ≤ n := by omega
  have hcell : getBlockAt st.heap b.addr = b := by
    rw [hheap]; exact getBlockAt_first pre [] b hpre
  have hfit : ¬ SIZE_ALIGN n ≤ b.size := by omega
  have hsub1 : subW st.brk b.addr = META_DATA_SIZE + b.size := by
    rw [subW_eq st.brk b.addr (by omega) hW]; omega
  have hsub2 : subW (META_DATA_SIZE + b.size) META_DATA_SIZE = b.size := by
    rw [subW_eq _ _ (by omega) (by omega)]; omega
  have hco : coalesce_block_at st.brk b.addr st.heap
      = pre ++ [⟨b.addr, Status.alloc, b.size⟩] := by
    rw [hheap, coalesce_block_at_last st.brk pre b hpre, hsub1, hsub2, hstatus]
  have hcell1 :
      getBlockAt (pre ++ [(⟨b.addr, Status.alloc, b.size⟩ : Block)]) b.addr
        = ⟨b.addr, Status.alloc, b.size⟩ :=
    getBlockAt_first pre [] ⟨b.addr, Status.alloc, b.size⟩ hpre
  have hlast :
      (pre ++ [(⟨b.addr, Status.alloc, b.size⟩ : Block)]).getLast?.map Block.addr
        = some b.addr := by
    simp [List.getLast?_concat]
  have hWal : SIZE_ALIGN n < W := by unfold W at *; omega
  have hsub3 : subW (SIZE_ALIGN n) b.size = SIZE_ALIGN n - b.size :=
    subW_eq _ _ (by omega) hWal
  have hset : set_block_at b.addr (fun c => { c with size := SIZE_ALIGN n })
      (pre ++ [(⟨b.addr, Status.alloc, b.size⟩ : Block)])
      = pre ++ [⟨b.addr, Status.alloc, SIZE_ALIGN n⟩] :=
    set_block_at_append pre [] ⟨b.addr, Status.alloc, b.size⟩ _ hpre
  unfold os_realloc
  rw [if_neg hptr]
  simp only [ha, hfind, if_neg (by omega : ¬ n = 0)]
  unfold os_realloc_alloc_case
  simp only [hcell, if_neg hBRK, hco, hcell1, hlast, hsub3, hset, if_neg hfit,
    and_self, if_true]

/-- The C4 witness heap: a single ALLOCATED block at the heap tail with the
break exactly at the end of its payload. -/
def c4wState : AllocState :=
  { heap := [⟨1000, Status.alloc, 8⟩]
    mapped := []
    brkHeadSize := 1
    mmapHeadSize := 0
    brk := 1040
    nextMap := 1000000
    pageSize := 4096
    mem := initMem }

/-- C4 witness: the amended theorem applied to a concrete one-block heap whose
last ALLOCATED block is grown in place from 8 to 104 payload bytes. -/
theorem realloc_extend_last_in_place_witness :
    c4wState.brk = 1000 + META_DATA_SIZE + 8 ∧
    os_realloc c4wState (1000 + META_DATA_SIZE) 100 =
      ({ c4wState with
          heap := [⟨1000, Status.alloc, SIZE_ALIGN 100⟩],
          brk := c4wState.brk + (SIZE_ALIGN 100 - 8) },
        some (1000 + META_DATA_SIZE)) :=
  ⟨rfl,
    realloc_extend_last_in_place c4wState [] ⟨1000, Status.alloc, 8⟩ 100 rfl rfl
      (by simp) rfl (by decide) (by decide) (by decide) (by decide)⟩

/-! Claims C6 and C10: os_calloc. -/

/-- C6: for inputs whose size_t product does not overflow, zeroed allocation
returns null when count * size = 0, and otherwise returns a payload whose
first SIZE_ALIGN(count * size) bytes are all zero — on the heap path and the
mapped path alike, since the memset runs after either. -/
theorem calloc_zeroed (st : AllocState) (n s : Nat) (hov : n * s < W) :
    (n * s = 0 → os_calloc st n s = (st, none)) ∧
    (n * s ≠ 0 → ∃ r, (os_calloc st n s).2 = some r ∧
      ∀ j, j < SIZE_ALIGN (n * s) → (os_calloc st n s).1.mem (r + j) = 0) := by
  have hmod : n * s % W = n * s := Nat.mod_eq_of_lt hov
  constructor
  · intro h0
    simp [os_calloc, hmod, h0]
  · intro h0
    simp only [os_calloc, hmod, if_neg h0]
    refine ⟨_, rfl, ?_⟩
    intro j hj
    simp only [memset0]
    rw [if_pos ⟨Nat.le_add_right _ _, by omega⟩]

/-- C6 witness: zeroed_allocate(3, 5) at the initial state returns a payload
whose first SIZE_ALIGN 15 = 24 bytes are zero. -/
theorem calloc_zeroed_witness :
    3 * 5 < W ∧ 3 * 5 ≠ 0 ∧
    (∃ r, (os_calloc initState 3 5).2 = some r ∧
      ∀ j, j < SIZE_ALIGN (3 * 5) → (os_calloc initState 3 5).1.mem (r + j) = 0) :=
  ⟨by decide, by decide, (calloc_zeroed initState 3 5 (by decide)).2 (by decide)⟩

/-- C10: os_calloc computes the request as count * size in wraparound size_t
arithmetic with no overflow check: its result depends on the inputs only
through the wrapped product, a product that wraps to zero yields null, and a
nonzero wrapped product allocates and zeroes SIZE_ALIGN of the wrapped value
only. -/
theorem calloc_wraparound (st : AllocState) (n s : Nat) :
    os_calloc st n s = os_calloc st (n * s % W) 1 ∧
    (n * s % W = 0 → os_calloc st n s = (st, none)) ∧
    (n * s % W ≠ 0 → ∃ r, (os_calloc st n s).2 = some r ∧
      ∀ j, j < SIZE_ALIGN (n * s % W) →
        (os_calloc st n s).1.mem (r + j) = 0) := by
  have hmod : n * s % W * 1 % W = n * s % W := by
    rw [Nat.mul_one]
    exact Nat.mod_mod_of_dvd _ dvd_rfl
  refine ⟨?_, ?_, ?_⟩
  · simp only [os_calloc, hmod]
  · intro h0
    simp [os_calloc, h0]
  · intro h0
    simp only [os_calloc, if_neg h0]
    refine ⟨_, rfl, ?_⟩
    intro j hj
    simp only [memset0]
    rw [if_pos ⟨Nat.le_add_right _ _, by omega⟩]

/-- C10 witness: count = 2^63 + 4 and size = 2 have a product that wraps to 8;
os_calloc allocates and zeroes 8 bytes instead of failing. -/
theorem calloc_wraparound_witness :
    (2 ^ 63 + 4) * 2 % W = 8 ∧
    (∃ r, (os_calloc initState (2 ^ 63 + 4) 2).2 = some r ∧
      ∀ j, j < SIZE_ALIGN ((2 ^ 63 + 4) * 2 % W) →
        (os_calloc initState (2 ^ 63 + 4) 2).1.mem (r + j) = 0) :=
  ⟨by decide,
    (calloc_wraparound initState (2 ^ 63 + 4) 2).2.2 (by decide)⟩

/-! Claim C5: correctness of the best-fit selection.  The scan loop is
related to a structural description (bfList) through a left-biased minimum
combinator (mergeBF), and the selection facts are proved for bfList. -/

/-- The candidate a scanned cell contributes to the best-fit search: its index
and size, when it is FREE and large enough. -/
def candOf (size i : Nat) (b : Block) : Option (Nat × Nat) :=
  if b.status = Status.free ∧ size ≤ b.size then some (i, b.size) else none

/-- Combine a best-so-far candidate with a later candidate: the later one wins
only when its size is strictly smaller, which is the tie-breaking rule of the
scan loop. -/
def mergeBF : Option (Nat × Nat) → Option (Nat × Nat) → Option (Nat × Nat)
  | none, r => r
  | some bi, none => some bi
  | some bi, some rj => if rj.2 < bi.2 then some rj else some bi

/-- A non-accumulating description of the scan from start index i. -/
def bfList (size : Nat) : List Block → Nat → Option (Nat × Nat)
  | [], _ => none
  | b :: rest, i => mergeBF (candOf size i b) (bfList size rest (i + 1))

lemma mergeBF_none_right (a : Option (Nat × Nat)) : mergeBF a none = a := by
  rcases a with _ | x <;> rfl

lemma mergeBF_assoc (a b c : Option (Nat × Nat)) :
    mergeBF (mergeBF a b) c = mergeBF a (mergeBF b c) := by
  rcases a with _ | ⟨ai, a2⟩
  · rfl
  · rcases b with _ | ⟨bi, b2⟩
    · rw [mergeBF_none_right]; rfl
    · rcases c with _ | ⟨ci, c2⟩
      · rw [mergeBF_none_right, mergeBF_none_right]
      · by_cases h1 : b2 < a2 <;> by_cases h2 : c2 < b2 <;>
          by_cases h3 : c2 < a2 <;>
          simp [mergeBF, h1, h2, h3] <;> omega

lemma search_loop_step (size : Nat) (b : Block) (rest : List Block)
    (i : Nat) (best : Option (Nat × Nat)) :
    search_loop size (b :: rest) i best
      = search_loop size rest (i + 1) (mergeBF best (candOf size i b)) := by
  have hbody : (if b.status = Status.free then
      let t := if best = none ∧ size ≤ b.size then some (i, b.size) else best
      match t with
      | none => none
      | some (bi, bs) =>
        if size ≤ b.size ∧ b.size < bs then some (i, b.size) else some (bi, bs)
    else best) = mergeBF best (candOf size i b) := by
    rcases best with _ | ⟨bi, bs⟩ <;>
      by_cases hf : b.status = Status.free <;>
      by_cases hs : size ≤ b.size <;>
      simp [mergeBF, candOf, hf, hs]
  simp only [search_loop]
  rw [hbody]

lemma search_loop_merge (size : Nat) (l : List Block) :
    ∀ (i : Nat) (best : Option (Nat × Nat)),
      search_loop size l i best = mergeBF best (bfList size l i) := by
  induction l with
  | nil => intro i best; simp [search_loop, bfList, mergeBF_none_right]
  | cons b rest ih =>
    intro i best
    rw [search_loop_step, ih]
    simp only [bfList]
    rw [mergeBF_assoc]

lemma search_best_fit_idx_eq (size : Nat) (l : List Block) :
    search_best_fit_idx size l = (bfList size l 0).map Prod.fst := by
  unfold search_best_fit_idx
  rw [search_loop_merge]
  rfl

lemma mergeBF_eq_none (a b : Option (Nat × Nat)) :
    mergeBF a b = none ↔ a = none ∧ b = none := by
  rcases a with _ | x
  · simp [mergeBF]
  · rcases b with _ | y
    · simp [mergeBF]
    · simp only [mergeBF]
      split_ifs <;> simp

lemma bfList_none_iff (size : Nat) (l : List Block) :
    ∀ i : Nat, (bfList size l i = none ↔
      ∀ b ∈ l, ¬(b.status = Status.free ∧ size ≤ b.size)) := by
  induction l with
  | nil => intro i; simp [bfList]
  | cons b rest ih =>
    intro i
    simp only [bfList, mergeBF_eq_none, List.mem_cons]
    constructor
    · rintro ⟨hc, hr⟩ c hc'
      rcases hc' with rfl | hc'
      · intro hgood
        unfold candOf at hc
        rw [if_pos hgood] at hc
        exact Option.noConfusion hc
      · exact (ih (i + 1)).1 hr c hc'
    · intro h
      refine ⟨?_, (ih (i + 1)).2 (fun c hc => h c (Or.inr hc))⟩
      unfold candOf
      rw [if_neg (h b (Or.inl rfl))]

lemma bfList_some_spec (size : Nat) (l : List Block) :
    ∀ (i j s : Nat), bfList size l i = some (j, s) →
      ∃ l1 b l2, l = l1 ++ b :: l2 ∧ j = i + l1.length ∧ b.size = s ∧
        b.status = Status.free ∧ size ≤ b.size ∧
        (∀ c ∈ l, c.status = Status.free → size ≤ c.size → s ≤ c.size) ∧
        (∀ c ∈ l1, c.status = Status.free → size ≤ c.size → s < c.size) := by
  induction l with
  | nil => intro i j s h; exact absurd h (by simp [bfList])
  | cons b rest ih =>
    intro i j s h
    rw [bfList] at h
    by_cases hgood : b.status = Status.free ∧ size ≤ b.size
    · rw [candOf, if_pos hgood] at h
      rcases hr : bfList size rest (i + 1) with _ | ⟨j', s'⟩
      · rw [hr] at h
        simp only [mergeBF, Option.some.injEq, Prod.mk.injEq] at h
        obtain ⟨hji, hbs⟩ := h
        refine ⟨[], b, rest, rfl, by simpa using hji.symm, hbs, hgood.1,
          hgood.2, ?_, by simp⟩
        intro c hc hcf hcs
        rcases List.mem_cons.mp hc with rfl | hc'
        · omega
        · exact absurd ⟨hcf, hcs⟩ ((bfList_none_iff size rest (i + 1)).1 hr c hc')
      · rw [hr] at h
        simp only [mergeBF] at h
        by_cases hlt : s' < b.size
        · rw [if_pos hlt] at h
          simp only [Option.some.injEq, Prod.mk.injEq] at h
          obtain ⟨hj', hs'⟩ := h
          obtain ⟨l1', b', l2', hrest, hjj, hbs, hstat, hsz, hmin, hearly⟩ :=
            ih (i + 1) j' s' hr
          refine ⟨b :: l1', b', l2', by rw [hrest, List.cons_append], ?_,
            by omega, hstat, hsz, ?_, ?_⟩
          · simp only [List.length_cons]; omega
          · intro c hc hcf hcs
            rcases List.mem_cons.mp hc with rfl | hc'
            · omega
            · have := hmin c hc' hcf hcs; omega
          · intro c hc hcf hcs
            rcases List.mem_cons.mp hc with rfl | hc'
            · omega
            · have := hearly c hc' hcf hcs; omega
        · rw [if_neg hlt] at h
          simp only [Option.some.injEq, Prod.mk.injEq] at h
          obtain ⟨hji, hbs⟩ := h
          obtain ⟨l1', b', l2', hrest, hjj, hbs', hstat, hsz, hmin, hearly⟩ :=
            ih (i + 1) j' s' hr
          refine ⟨[], b, rest, rfl, by simpa using hji.symm, hbs, hgood.1,
            hgood.2, ?_, by simp⟩
          intro c hc hcf hcs
          rcases List.mem_cons.mp hc with rfl | hc'
          · omega
          · have := hmin c hc' hcf hcs; omega
    · rw [candOf, if_neg hgood] at h
      simp only [mergeBF] at h
      obtain ⟨l1', b', l2', hrest, hjj, hbs, hstat, hsz, hmin, hearly⟩ :=
        ih (i + 1) j s h
      refine ⟨b :: l1', b', l2', by rw [hrest, List.cons_append], ?_, hbs,
        hstat, hsz, ?_, ?_⟩
      · simp only [List.length_cons]; omega
      · intro c hc hcf hcs
        rcases List.mem_cons.mp hc with rfl | hc'
        · exact absurd ⟨hcf, hcs⟩ hgood
        · exact hmin c hc' hcf hcs
      · intro c hc hcf hcs
        rcases List.mem_cons.mp hc with rfl | hc'
        · exact absurd ⟨hcf, hcs⟩ hgood
        · exact hearly c hc' hcf hcs

/-- C5: the best-fit scan reports none exactly when no FREE block is at least
the aligned request (block sizes being multiples of 8, the loop's raw-size
comparison agrees with the aligned one); a returned index names a FREE block
large enough whose size is minimal among all adequate FREE blocks, every
adequate FREE block strictly before it being strictly larger; and on a miss
os_malloc falls through to tail extension. -/
theorem search_best_fit_selection (l : List Block) (size : Nat)
    (h8 : ∀ b ∈ l, b.size % 8 = 0) :
    (search_best_fit_idx size l = none ↔
      ∀ b ∈ l, ¬(b.status = Status.free ∧ SIZE_ALIGN size ≤ b.size)) ∧
    (∀ j, search_best_fit_idx size l = some j →
      ∃ l1 b l2, l = l1 ++ b :: l2 ∧ j = l1.length ∧
        b.status = Status.free ∧ SIZE_ALIGN size ≤ b.size ∧
        (∀ c ∈ l, c.status = Status.free → SIZE_ALIGN size ≤ c.size →
          b.size ≤ c.size) ∧
        (∀ c ∈ l1, c.status = Status.free → SIZE_ALIGN size ≤ c.size →
          b.size < c.size)) ∧
    (∀ st : AllocState, 0 < size → size < BRK_LIMIT →
      search_best_fit_idx size (heapReady st).heap = none →
      os_malloc st size =
        ((increase_heap (heapReady st) size).1,
          some ((increase_heap (heapReady st) size).2))) := by
  have halign : ∀ c ∈ l, (SIZE_ALIGN size ≤ c.size ↔ size ≤ c.size) :=
    fun c hc => le_size_align_iff size c.size (h8 c hc)
  refine ⟨?_, ?_, ?_⟩
  · rw [search_best_fit_idx_eq]
    rcases hb : bfList size l 0 with _ | ⟨j, s⟩
    · simp only [Option.map_none', true_iff]
      intro b hbmem hgood
      exact (bfList_none_iff size l 0).1 hb b hbmem
        ⟨hgood.1, (halign b hbmem).mp hgood.2⟩
    · obtain ⟨l1, b, l2, hl, _, hbs, hstat, hsz, _, _⟩ :=
        bfList_some_spec size l 0 j s hb
      have hbmem : b ∈ l := by
        rw [hl]; exact List.mem_append_right l1 (List.mem_cons_self b l2)
      constructor
      · intro hcontr; exact absurd hcontr (by simp)
      · intro hall
        exact absurd ⟨hstat, (halign b hbmem).mpr hsz⟩ (hall b hbmem)
  · intro j hj
    rw [search_best_fit_idx_eq] at hj
    rcases hb : bfList size l 0 with _ | ⟨j', s⟩
    · rw [hb] at hj; exact absurd hj (by simp)
    · rw [hb] at hj
      simp only [Option.map_some', Option.some.injEq] at hj
      obtain ⟨l1, b, l2, hl, hjl, hbs, hstat, hsz, hmin, hearly⟩ :=
        bfList_some_spec size l 0 j' s hb
      refine ⟨l1, b, l2, hl, by omega, hstat,
        (halign b (by rw [hl]; exact List.mem_append_right l1 (List.mem_cons_self b l2))).mpr hsz,
        ?_, ?_⟩
      · intro c hc hcf hcs
        have := hmin c hc hcf ((halign c hc).mp hcs)
        omega
      · intro c hc hcf hcs
        have hcl : c ∈ l := by
          rw [hl]; exact List.mem_append_left _ hc
        have := hearly c hc hcf ((halign c hcl).mp hcs)
        omega
  · intro st h0 hlt hnone
    have hn : ¬ size = 0 := by omega
    have hge : ¬ BRK_LIMIT ≤ size := by omega
    simp only [os_malloc, if_neg hn, if_neg hge, heapPath, hnone]

/-- The C5 witness heap list: one ALLOCATED block and three FREE blocks of
sizes 32, 8 and 32. -/
def c5List : List Block :=
  [⟨0, Status.alloc, 16⟩, ⟨48, Status.free, 32⟩, ⟨112, Status.free, 8⟩,
    ⟨152, Status.free, 32⟩]

/-- C5 witness: for a request of 20 (aligned 24) on the concrete list, the
scan picks index 1, the earliest of the two smallest adequate FREE blocks,
and the selection theorem applies. -/
theorem search_best_fit_selection_witness :
    (∀ b ∈ c5List, b.size % 8 = 0) ∧
    search_best_fit_idx 20 c5List = some 1 ∧
    (∀ j, search_best_fit_idx 20 c5List = some j →
      ∃ l1 b l2, c5List = l1 ++ b :: l2 ∧ j = l1.length ∧
        b.status = Status.free ∧ SIZE_ALIGN 20 ≤ b.size ∧
        (∀ c ∈ c5List, c.status = Status.free → SIZE_ALIGN 20 ≤ c.size →
          b.size ≤ c.size) ∧
        (∀ c ∈ l1, c.status = Status.free → SIZE_ALIGN 20 ≤ c.size →
          b.size < c.size)) :=
  ⟨by decide, by decide, (search_best_fit_selection c5List 20 (by decide)).2.1⟩

end OsMem
